import Mathlib

/-!
Verification of the record normalization / deduplication / citation-key /
export core of the `prisma-multivariate` repository
(`src/scripts/utils/api_utils.py` and
`src/scripts/utils/record_standardisations.py`).

Python values, strings and dictionaries are shallowly embedded:
strings as Lean `String` (operated on through their `List Char` data,
which matches Python's code-point view), dictionaries as association
lists, and dynamically typed field values as the small `PyVal` type.
All definitions are executable and structurally recursive so that
concrete runs reduce by `decide` / `rfl`.
-/

/-- A dynamically typed Python value as it can appear in a raw API entry.
`vOther` stands for any value that is neither `None`, a string, nor an
`int` (for example a list or a dict); such values are truthy here, which
is all the translated code observes about them. -/
inductive PyVal where
  | vNone
  | vStr (s : String)
  | vInt (n : Int)
  | vOther
  deriving DecidableEq

/-- Python truthiness of a `PyVal`: `None` is falsy, a string is truthy
iff nonempty, an int is truthy iff nonzero. -/
def pyTruthy : PyVal → Bool
  | .vNone => false
  | .vStr s => !(s == "")
  | .vInt n => !(n == 0)
  | .vOther => true

/-- Python's `a or b`: `a` when `a` is truthy, otherwise `b`. -/
def pyOr (a b : PyVal) : PyVal :=
  if pyTruthy a then a else b

/-- Is this value a Python `str`? (models `isinstance(v, str)`). -/
def PyVal.isStr : PyVal → Bool
  | .vStr _ => true
  | _ => false

/-- The underlying string of a `PyVal`, defaulting to `""`; only
consulted after an `isStr` check. -/
def PyVal.asStr : PyVal → String
  | .vStr s => s
  | _ => ""

/-- A raw API entry: a Python dict as an association list from field
names to values. -/
def RawEntry := List (String × PyVal)

/-- Python `entry.get(key)`: the first value stored under `key`, or `None` when
the key is absent. -/
def pyGet (e : RawEntry) (k : String) : PyVal :=
  match e.find? (fun q => q.1 == k) with
  | some q => q.2
  | none => .vNone

/-- Python `str.isspace`-style whitespace characters (ASCII model of the
characters stripped by `str.strip()` and `int(str)`). -/
def pyIsSpace (c : Char) : Bool :=
  c == ' ' || c == '\t' || c == '\n' || c == '\x0d' || c == '\x0b' || c == '\x0c'

/-- Python `str.strip()` on the character list: remove leading and trailing
whitespace. -/
def pyStripL (l : List Char) : List Char :=
  ((l.dropWhile pyIsSpace).reverse.dropWhile pyIsSpace).reverse

/-- Python `str.strip()`. -/
def pyStrip (s : String) : String :=
  ⟨pyStripL s.data⟩

/-- Python `str.lower()` (ASCII model). -/
def lowerStr (s : String) : String :=
  ⟨s.data.map Char.toLower⟩

/-- Digit accumulation for `int(str)`: consumes decimal digits with
single underscores allowed between digits (CPython literal syntax).
`none` on any other character, a trailing underscore, or a doubled
underscore. -/
def intDigitsAux : List Char → Nat → Option Nat
  | [], acc => some acc
  | c :: cs, acc =>
    if c.isDigit then intDigitsAux cs (acc * 10 + (c.toNat - 48))
    else if c == '_' then
      match cs with
      | d :: _ => if d.isDigit then intDigitsAux cs acc else none
      | [] => none
    else none

/-- Python `int(s)` for a `str` argument (ASCII model): strip
whitespace, accept an optional sign, then decimal digits with single
underscores between digits; `none` models the `ValueError` path. -/
def pyIntParse (s : String) : Option Int :=
  match pyStripL s.data with
  | [] => none
  | c :: cs =>
    let signNeg : Bool := c == '-'
    let rest := if c == '-' || c == '+' then cs else c :: cs
    match rest with
    | [] => none
    | d :: ds =>
      if d.isDigit then
        (intDigitsAux (d :: ds) 0).map (fun n => if signNeg then -(n : Int) else (n : Int))
      else none

/-- Python `s.split('-')[0]`: the prefix of `s` before the first `'-'`. -/
def firstDashSeg (s : String) : String :=
  ⟨s.data.takeWhile (fun c => !(c == '-'))⟩

/-- The canonical normalized paper record produced by
`validate_paper_entry` (the keys of the returned dict). -/
structure Paper where
  doi : Option String
  title : String
  authors : Option String
  year : Option Int
  publicationName : Option String
  url : Option String
  citedByCount : Int
  deriving DecidableEq

/-- Resolution of the DOI field: `entry.get("doi") or entry.get("prism:doi")`. -/
def resolveDoiVal (e : RawEntry) : PyVal :=
  pyOr (pyGet e "doi") (pyGet e "prism:doi")

/-- Resolution of the title field: `entry.get("title") or entry.get("dc:title")`. -/
def resolveTitleVal (e : RawEntry) : PyVal :=
  pyOr (pyGet e "title") (pyGet e "dc:title")

/-- Resolution of the authors field:
`entry.get("authors") or entry.get("dc:creator") or entry.get("author")`. -/
def resolveAuthorsVal (e : RawEntry) : PyVal :=
  pyOr (pyOr (pyGet e "authors") (pyGet e "dc:creator")) (pyGet e "author")

/-- Resolution of the year field:
`entry.get("year") or entry.get("prism:coverDisplayDate") or entry.get("publicationYear")`. -/
def resolveYearVal (e : RawEntry) : PyVal :=
  pyOr (pyOr (pyGet e "year") (pyGet e "prism:coverDisplayDate")) (pyGet e "publicationYear")

/-- Resolution of the publication name:
`entry.get("publicationName") or entry.get("prism:publicationName") or entry.get("journal")`. -/
def resolvePubVal (e : RawEntry) : PyVal :=
  pyOr (pyOr (pyGet e "publicationName") (pyGet e "prism:publicationName")) (pyGet e "journal")

/-- Resolution of the URL: `entry.get("url") or entry.get("prism:url")`. -/
def resolveUrlVal (e : RawEntry) : PyVal :=
  pyOr (pyGet e "url") (pyGet e "prism:url")

/-- Resolution of the citation count:
`entry.get("citedby-count") or entry.get("citationCount") or entry.get("citations")`. -/
def resolveCitedVal (e : RawEntry) : PyVal :=
  pyOr (pyOr (pyGet e "citedby-count") (pyGet e "citationCount")) (pyGet e "citations")

/-- DOI cleaning: `None` stays, a string stays, any other type is
degraded to `None` (with a logged warning in the source). -/
def extractDoi : PyVal → Option String
  | .vStr s => some s
  | _ => none

/-- Title cleaning: `if not title or not isinstance(title, str)` gives
the sentinel `"Unknown Title"`, otherwise `title.strip()`. -/
def extractTitle (v : PyVal) : String :=
  if !(pyTruthy v) || !(v.isStr) then "Unknown Title" else pyStrip v.asStr

/-- Authors cleaning: same shape as DOI cleaning. -/
def extractAuthors : PyVal → Option String
  | .vStr s => some s
  | _ => none

/-- Evaluation of `int(year_str.split('-')[0])` followed by the `1900 <= year <= 2030`
range check; `none` on parse failure or out-of-range. -/
def yearFromString (s : String) : Option Int :=
  match pyIntParse (firstDashSeg s) with
  | some n => if 1900 ≤ n ∧ n ≤ 2030 then some n else none
  | none => none

/-- Year cleaning: only a truthy `str` value is parsed
(`if year_str and isinstance(year_str, str)`), everything else is `None`. -/
def extractYear (v : PyVal) : Option Int :=
  if pyTruthy v && v.isStr then yearFromString v.asStr else none

/-- Publication-name cleaning: a truthy string is stripped, anything
else becomes `None`. -/
def extractPub (v : PyVal) : Option String :=
  if pyTruthy v && v.isStr then some (pyStrip v.asStr) else none

/-- URL cleaning: a truthy string is stripped, anything else becomes
`None`. -/
def extractUrlOpt (v : PyVal) : Option String :=
  if pyTruthy v && v.isStr then some (pyStrip v.asStr) else none

/-- Citation-count cleaning: `int(cited_count)` with `None` and
conversion failures degrading to `0`. -/
def extractCited : PyVal → Int
  | .vNone => 0
  | .vInt n => n
  | .vStr s => (pyIntParse s).getD 0
  | .vOther => 0

/-- Translation of `validate_paper_entry` (api_utils.py, lines 83-172) for a dict
entry with `required_fields=None`: each canonical field is extracted
independently and defensively. -/
def validatePaperEntry (e : RawEntry) : Paper :=
  { doi := extractDoi (resolveDoiVal e)
    title := extractTitle (resolveTitleVal e)
    authors := extractAuthors (resolveAuthorsVal e)
    year := extractYear (resolveYearVal e)
    publicationName := extractPub (resolvePubVal e)
    url := extractUrlOpt (resolveUrlVal e)
    citedByCount := extractCited (resolveCitedVal e) }

/-! ## Citation-key generator (`clean_bibtex_key`, api_utils.py lines 174-236) -/

/-- Membership in `\w` of an ASCII regex: letters, digits and underscore. -/
def isWordChar (c : Char) : Bool :=
  c.isAlphanum || c == '_'

/-- Decimal digit characters of a natural number, most significant
first, written with structural fuel (`n + 1` steps always suffice) so
that the definition reduces in the kernel; models Python `str(n)` for a
nonnegative `int`. -/
def natDigitsAux : Nat → Nat → List Char
  | 0, _ => []
  | fuel + 1, n =>
    if n < 10 then [Char.ofNat (48 + n)]
    else natDigitsAux fuel (n / 10) ++ [Char.ofNat (48 + n % 10)]

/-- Python `str(n)` for a natural number. -/
def natToStr (n : Nat) : String :=
  ⟨natDigitsAux (n + 1) n⟩

/-- Python `str(i)` for an `int`. -/
def intToStr (i : Int) : String :=
  if i < 0 then "-" ++ natToStr i.natAbs else natToStr i.natAbs

/-- Python's slice `s[:m]` for an `int` bound `m`: a nonnegative bound
keeps the first `m` characters, a negative bound drops the last `-m`. -/
def pySliceTo (s : String) (m : Int) : String :=
  if 0 ≤ m then ⟨s.data.take m.toNat⟩ else ⟨s.data.take (s.data.length - (-m).toNat)⟩

/-- Split a character list on runs of whitespace, dropping empty groups:
Python `str.split()` with no argument. -/
def wsSplitGo : List Char → List Char → List (List Char)
  | [], cur => if cur.isEmpty then [] else [cur.reverse]
  | c :: cs, cur =>
    if pyIsSpace c then
      if cur.isEmpty then wsSplitGo cs [] else cur.reverse :: wsSplitGo cs []
    else wsSplitGo cs (c :: cur)

/-- Python `str.split()`. -/
def wsSplit (l : List Char) : List (List Char) :=
  wsSplitGo l []

/-- Last name of the first author:
`re.split(r'[,;]', authors.strip())[0].strip()` and then the last
whitespace token, with `"unknown"` for a falsy author string or an
empty first-author part. -/
def lastNamePart (authors : Option String) : List Char :=
  match authors with
  | some a =>
    if a == "" then "unknown".data
    else
      let firstAuthor := pyStripL ((pyStripL a.data).takeWhile (fun c => !(c == ',') && !(c == ';')))
      if firstAuthor.isEmpty then "unknown".data
      else ((wsSplit firstAuthor).getLastD [])
  | none => "unknown".data

/-- First word of the title: lowercase, delete `[^\w\s]`, split on
whitespace, first token, with `"unknown"` for a falsy title or no
tokens. -/
def firstWordPart (title : String) : List Char :=
  if title == "" then "unknown".data
  else
    let cleanTitle := (title.data.map Char.toLower).filter (fun c => isWordChar c || pyIsSpace c)
    match wsSplit cleanTitle with
    | w :: _ => w
    | [] => "unknown".data

/-- The year component: `str(year) if year else "unknown"` (so both
`None` and `0` give `"unknown"`). -/
def yearPart (year : Option Int) : List Char :=
  match year with
  | some y => if y == 0 then "unknown".data else (intToStr y).data
  | none => "unknown".data

/-- The base citation key: `lastname + yearpart + firstword`, all
non-word characters removed, truncated to 50 characters. -/
def mkBaseKey (title : String) (authors : Option String) (year : Option Int) : String :=
  ⟨((lastNamePart authors ++ yearPart year ++ firstWordPart title).filter isWordChar).take 50⟩

/-- The candidate key tried at loop iteration `s` of the collision loop
(`suffixCand base 0` is the bare base key): `base + str(s)` when that
stays within 50 characters, otherwise `base[:50 - len(str(s))] + str(s)`. -/
def suffixCand (base : String) : Nat → String
  | 0 => base
  | s + 1 =>
    let d := natToStr (s + 1)
    if (base ++ d).length ≤ 50 then base ++ d
    else pySliceTo base ((50 : Int) - d.length) ++ d

/-- The `while key in existing_keys` loop: starting from candidate `s`,
move to the next suffix while the current candidate is registered.
The fuel argument bounds the number of iterations (the caller passes
`existing_keys.length + 1`); when it is exhausted the current candidate
is returned. -/
def keyLoop (keys : List String) (base : String) : Nat → Nat → String
  | 0, s => suffixCand base s
  | fuel + 1, s =>
    if suffixCand base s ∈ keys then keyLoop keys base fuel (s + 1)
    else suffixCand base s

/-- Translation of `clean_bibtex_key(title, authors, year, doi, existing_keys)`: the
`doi` parameter is accepted and unused, exactly as in the source. -/
def cleanBibtexKey (title : String) (authors : Option String) (year : Option Int)
    (doi : Option String) (keys : List String) : String :=
  keyLoop keys (mkBaseKey title authors year) (keys.length + 1) 0

/-! ## BibTeX exporter (`paper_to_bibtex`, `save_bibtex`, lines 238-328) -/

/-- The literal brace characters (kept out of string literals). -/
def braceOpen : Char := Char.ofNat 123

/-- See `braceOpen`. -/
def braceClose : Char := Char.ofNat 125

/-- Escaping `.replace('{', '\\{').replace('}', '\\}')` on free-text fields. -/
def escBracesL : List Char → List Char
  | [] => []
  | c :: cs =>
    if c == braceOpen then '\\' :: braceOpen :: escBracesL cs
    else if c == braceClose then '\\' :: braceClose :: escBracesL cs
    else c :: escBracesL cs

/-- Brace escaping on strings. -/
def escBraces (s : String) : String :=
  ⟨escBracesL s.data⟩

/-- A single `  name = {value},\n` BibTeX field line. -/
def bibField (name : String) (value : String) : String :=
  "  " ++ name ++ " = " ++ ⟨[braceOpen]⟩ ++ value ++ ⟨[braceClose]⟩ ++ ",\n"

/-- The conditional field lines of one entry, in source order; a falsy
(empty / absent / zero) value contributes nothing. -/
def bibFields (p : Paper) : String :=
  (if p.title == "" then "" else bibField "title" (escBraces p.title))
  ++ (match p.authors with
      | some a => if a == "" then "" else bibField "author" (escBraces a)
      | none => "")
  ++ (match p.year with
      | some y => if y == 0 then "" else bibField "year" (intToStr y)
      | none => "")
  ++ (match p.publicationName with
      | some j => if j == "" then "" else bibField "journal" (escBraces j)
      | none => "")
  ++ (match p.doi with
      | some d => if d == "" then "" else bibField "doi" d
      | none => "")
  ++ (match p.url with
      | some u => if u == "" then "" else bibField "url" u
      | none => "")
  ++ (if p.citedByCount > 0 then bibField "note" ("Citations: " ++ intToStr p.citedByCount) else "")

/-- Python `bibtex.rstrip(',\n')`: remove every trailing comma or newline. -/
def rstripCommaNl (s : String) : String :=
  ⟨(s.data.reverse.dropWhile (fun c => c == ',' || c == '\n')).reverse⟩

/-- Translation of `paper_to_bibtex(paper, existing_keys)`: generate the key, emit
`@article{key,` then the field lines, strip the trailing `,\n` run and
close the entry. -/
def paperToBibtexEntry (p : Paper) (keys : List String) : String :=
  let key := cleanBibtexKey p.title p.authors p.year p.doi keys
  rstripCommaNl ("@article" ++ ⟨[braceOpen]⟩ ++ key ++ ",\n" ++ bibFields p)
    ++ "\n" ++ ⟨[braceClose]⟩ ++ "\n\n"

/-- The loop body of `save_bibtex`: emit one entry, then re-parse the
key out of the entry text (`find('@article{') + 9` up to the next
comma) and register it — but only when a comma is found after position
9; otherwise `existing_keys` is left unchanged. -/
def saveBibtexStep (keys : List String) (p : Paper) : String × List String :=
  let e := paperToBibtexEntry p keys
  let afterKeyStart := e.data.drop 9
  if afterKeyStart.contains ',' then
    (e, ⟨afterKeyStart.takeWhile (fun c => !(c == ','))⟩ :: keys)
  else
    (e, keys)

/-- The three-line comment block at the top of the BibTeX file; `ts` is
the wall-clock timestamp string. -/
def mkBibHeader (ts : String) (total : Nat) : String :=
  "% BibTeX entries generated from API\n% Generated on: " ++ ts
    ++ "\n% Total papers: " ++ natToStr total ++ "\n\n"

/-- Translation of `save_bibtex(papers, path)` modelled as the file content it writes
together with the final key registry: header block, then one entry per
paper in processing order, threading `existing_keys` through. -/
def saveBibtex (papers : List Paper) (ts : String) : String × List String :=
  papers.foldl
    (fun acc p =>
      let r := saveBibtexStep acc.2 p
      (acc.1 ++ r.1, r.2))
    (mkBibHeader ts papers.length, [])

/-! ## CSV exporter and exact DOI deduplication
(`save_results_to_csv`, api_utils.py lines 330-365) -/

/-- Pandas `df_with_doi.drop_duplicates(subset='doi')`: keep the first row per
DOI value, comparing DOI strings exactly; `seen` accumulates the DOI
values of the rows already kept. -/
def dedupByDoiAux : List Paper → List (Option String) → List Paper
  | [], _ => []
  | p :: ps, seen =>
    if p.doi ∈ seen then dedupByDoiAux ps seen
    else p :: dedupByDoiAux ps (p.doi :: seen)

/-- The DataFrame computed by `save_results_to_csv`: partition on
`df['doi'].notna()`, deduplicate the rows that have a DOI, then
concatenate the DOI-less rows after them (`pd.concat`). -/
def saveResultsCore (papers : List Paper) : List Paper :=
  dedupByDoiAux (papers.filter (fun p => p.doi.isSome)) []
    ++ papers.filter (fun p => p.doi.isNone)

/-- Translation of `save_results_to_csv(papers, path)` as the DataFrame it returns.
`pd.DataFrame([])` has no columns at all, so on an empty input
`df['doi']` raises `KeyError`, which the surrounding handler re-raises
as `APIError` — the error branch below. A nonempty list of
`validate_paper_entry` dicts always provides the `doi` column. -/
def saveResultsToCsv (papers : List Paper) : Except String (List Paper) :=
  if papers.isEmpty then .error "Failed to save CSV file: KeyError: doi"
  else .ok (saveResultsCore papers)

/-! ## Title-similarity deduplication
(`remove_duplicates`, record_standardisations.py lines 24-42)

The TF-IDF vectorization and cosine-similarity matrix are produced by
scikit-learn (an external library, not code of this repository); the
matrix is therefore abstracted as a function `sim : Nat → Nat → ℚ`
giving the cosine similarity of the titles at two row positions. The
index bookkeeping — the double loop collecting duplicate labels and the
`df.drop` — is translated exactly. -/

/-- The `duplicates` list built by the double loop: for each
`i in range(n)` and each `j in range(i+1, n)` (written here as the
`i < j` filter over `range n`), append `j` whenever
`similarity_matrix[i][j] > 0.8`. -/
def dupIndices (sim : Nat → Nat → ℚ) (n : Nat) : List Nat :=
  (List.range n).flatMap
    (fun i => (List.range n).filter (fun j => decide (i < j) && decide (sim i j > 4/5)))

/-- Pandas `df.drop(df.index[duplicates]).reset_index(drop=True)`: walk the
rows with their positional label `j`, dropping every row whose label
occurs in `dups`. -/
def removeDupGo (dups : List Nat) : Nat → List Paper → List Paper
  | _, [] => []
  | j, r :: rs =>
    if j ∈ dups then removeDupGo dups (j + 1) rs
    else r :: removeDupGo dups (j + 1) rs

/-- Translation of `remove_duplicates(df)` over the abstract similarity matrix. -/
def removeDuplicates (sim : Nat → Nat → ℚ) (recs : List Paper) : List Paper :=
  removeDupGo (dupIndices sim recs.length) 0 recs

/-- The deduplication pipeline of the specification: the exact DOI pass
of `save_results_to_csv` followed by the title-similarity pass of
`remove_duplicates`; `sim` is the similarity matrix of the titles of
the intermediate (post-exact-pass) record list. -/
def dedupPipeline (sim : Nat → Nat → ℚ) (papers : List Paper) : List Paper :=
  removeDuplicates sim (saveResultsCore papers)

/-- Spec-shaped companion of `removeDuplicates` (it follows the words
of the claim): walking the rows at position `j`, drop the row exactly
when some earlier position `i < j` has similarity above 0.8 with it. -/
def keepDissimilar (sim : Nat → Nat → ℚ) : Nat → List Paper → List Paper
  | _, [] => []
  | j, r :: rs =>
    if ∃ i, i < j ∧ sim i j > 4/5 then keepDissimilar sim (j + 1) rs
    else r :: keepDissimilar sim (j + 1) rs

/-- A record with only a DOI and a title, used for concrete runs. -/
def mkP (doi : Option String) (t : String) : Paper :=
  ⟨doi, t, none, none, none, none, 0⟩

/-! ## Helper lemmas -/

/-- Dropping a prefix cannot remove an element the predicate rejects. -/
theorem mem_dropWhile_of_neg {p : Char → Bool} {c : Char} (hc : p c = false) :
    ∀ {l : List Char}, c ∈ l → c ∈ l.dropWhile p := by
  intro l hl
  induction l with
  | nil => cases hl
  | cons a t ih =>
    by_cases ha : p a
    · rw [List.dropWhile_cons_of_pos ha]
      rcases List.mem_cons.mp hl with h | h
      · subst h; rw [hc] at ha; cases ha
      · exact ih h
    · rw [List.dropWhile_cons_of_neg ha]
      exact hl

/-- Python `str.strip()` keeps every non-whitespace character of its input. -/
theorem mem_pyStripL {c : Char} (hc : pyIsSpace c = false) {l : List Char}
    (hl : c ∈ l) : c ∈ pyStripL l := by
  unfold pyStripL
  exact List.mem_reverse.mpr
    (mem_dropWhile_of_neg hc (List.mem_reverse.mpr (mem_dropWhile_of_neg hc hl)))

/-- A string made from a nonempty character list is not the empty string. -/
theorem strMk_ne_empty {l : List Char} (h : l ≠ []) : (⟨l⟩ : String) ≠ "" := by
  intro he
  exact h (congrArg String.data he)

/-- Projection of `validatePaperEntry` on the title. -/
theorem validate_title_eq (e : RawEntry) :
    (validatePaperEntry e).title = extractTitle (resolveTitleVal e) := rfl

/-- Projection of `validatePaperEntry` on the year. -/
theorem validate_year_eq (e : RawEntry) :
    (validatePaperEntry e).year = extractYear (resolveYearVal e) := rfl

/-- Value-level characterization of the title-cleaning branch. -/
theorem extractTitle_cases (v : PyVal) :
    extractTitle v =
      (match v with
       | .vStr s => if s = "" then "Unknown Title" else pyStrip s
       | _ => "Unknown Title") := by
  cases v with
  | vStr s =>
    by_cases hs : s = ""
    · subst hs; rfl
    · simp [extractTitle, pyTruthy, PyVal.isStr, PyVal.asStr, hs]
  | vNone => rfl
  | vInt n => simp [extractTitle, PyVal.isStr]
  | vOther => rfl

/-- C7 (as stated) is violated: a whitespace-only source title survives
the truthiness test and strips to the empty string. -/
theorem title_whitespace_cex :
    (validatePaperEntry [("title", PyVal.vStr " ")]).title = "" := rfl

/-- C7 (amended): `Paper.title` is the whitespace-trimmed source title
when the resolved title value is a non-empty string (possibly the empty
string when the source title is whitespace-only), and the sentinel
`"Unknown Title"` when the source omits, mistypes, or leaves it empty;
the title is non-empty whenever the source title has a non-whitespace
character. -/
theorem title_normalization (e : RawEntry) :
    ((validatePaperEntry e).title =
      (match resolveTitleVal e with
       | .vStr s => if s = "" then "Unknown Title" else pyStrip s
       | _ => "Unknown Title"))
    ∧ (∀ s : String, resolveTitleVal e = .vStr s →
        (∃ c ∈ s.data, pyIsSpace c = false) →
        (validatePaperEntry e).title ≠ "") := by
  constructor
  · rw [validate_title_eq, extractTitle_cases]
  · rintro s hres ⟨c, hcmem, hcsp⟩
    rw [validate_title_eq, extractTitle_cases, hres]
    have hs : s ≠ "" := by
      intro he
      subst he
      cases hcmem
    simp only [hs, if_false]
    exact strMk_ne_empty (List.ne_nil_of_mem (mem_pyStripL hcsp hcmem))

/-- Witness for C7: a title with real content strips to a non-empty
title. -/
theorem title_normalization_w :
    (validatePaperEntry [("title", PyVal.vStr " Hello ")]).title ≠ "" :=
  (title_normalization [("title", PyVal.vStr " Hello ")]).2 " Hello " rfl
    ⟨'H', by decide, by decide⟩

/-- C8: when the resolved raw year value is a string, `Paper.year` is
obtained by splitting on `-`, parsing the first segment as an integer
and keeping it exactly when it lies in `[1900, 2030]`; parse failures
and out-of-range values give `none`, and nothing raises (the embedding
is total). -/
theorem year_normalization (e : RawEntry) (s : String)
    (h : resolveYearVal e = .vStr s) :
    (validatePaperEntry e).year = yearFromString s := by
  rw [validate_year_eq, h]
  by_cases hs : s = ""
  · subst hs; rfl
  · simp [extractYear, pyTruthy, PyVal.isStr, PyVal.asStr, hs]

/-- Witness for C8 at a concrete Scopus-style date string. -/
theorem year_normalization_w :
    (validatePaperEntry [("year", PyVal.vStr "2021-05-01")]).year = some 2021 := by
  have h := year_normalization [("year", PyVal.vStr "2021-05-01")] "2021-05-01" rfl
  exact h.trans (by decide)

/-- C10: whenever the resolved raw year value is not a string — an
`int` (even in-range, like `2021`), `None`, or any other type —
it is never parsed and `Paper.year` is `none`. -/
theorem year_nonstring_none (e : RawEntry)
    (h : (resolveYearVal e).isStr = false) :
    (validatePaperEntry e).year = none := by
  rw [validate_year_eq]
  unfold extractYear
  rw [h, Bool.and_false]
  rfl

/-- Witness for C10: the in-range integer `2021` still yields `none`. -/
theorem year_nonstring_none_w :
    (validatePaperEntry [("year", PyVal.vInt 2021)]).year = none :=
  year_nonstring_none [("year", PyVal.vInt 2021)] rfl

/-- C5 is violated by the code: for a paper with no emittable field
(empty title, no authors, year `None`, no venue, no DOI, no URL, zero
citations) the entry body is empty, `rstrip(',\n')` eats the comma
after the key, the `find(',', 9)` re-parse fails, and the returned key
is never registered — two successive calls return the same key and the
registry stays empty. -/
theorem bibtex_key_not_registered_cex :
    cleanBibtexKey "" none none none [] = "unknownunknownunknown"
    ∧ (saveBibtexStep [] (mkP none "")).2 = []
    ∧ (saveBibtexStep (saveBibtexStep [] (mkP none "")).2 (mkP none "")).1
        = (saveBibtexStep [] (mkP none "")).1 := by
  exact ⟨rfl, rfl, rfl⟩

/-- C6 is violated by the code on the tabular side: an empty input list
yields an empty DataFrame without a `doi` column, so `df['doi']` raises
and `save_results_to_csv` fails with `APIError` instead of writing a
header-only file; the bibliography sink does tolerate emptiness, its
output being exactly the header block. -/
theorem empty_input_sinks_cex :
    saveResultsToCsv [] = .error "Failed to save CSV file: KeyError: doi"
    ∧ (saveBibtex [] "2024-01-01 00:00:00").1 = mkBibHeader "2024-01-01 00:00:00" 0
    ∧ (saveBibtex [] "2024-01-01 00:00:00").2 = [] := by
  exact ⟨rfl, rfl, rfl⟩

/-- Membership in the duplicate-label list built by the double loop. -/
theorem mem_dupIndices {sim : Nat → Nat → ℚ} {n j : Nat} :
    j ∈ dupIndices sim n ↔ ∃ i, i < j ∧ j < n ∧ sim i j > 4/5 := by
  simp only [dupIndices, List.mem_flatMap, List.mem_filter, List.mem_range,
    Bool.and_eq_true, decide_eq_true_eq]
  constructor
  · rintro ⟨i, _, hj, hij, hs⟩
    exact ⟨i, hij, hj, hs⟩
  · rintro ⟨i, hij, hj, hs⟩
    exact ⟨i, lt_trans hij hj, hj, hij, hs⟩

/-- The label-dropping walk agrees with the spec-shaped
`keepDissimilar` as long as the position counter stays below the row
count. -/
theorem removeDupGo_eq_keepDissimilar (sim : Nat → Nat → ℚ) (n : Nat) :
    ∀ (rs : List Paper) (j : Nat), j + rs.length = n →
      removeDupGo (dupIndices sim n) j rs = keepDissimilar sim j rs := by
  intro rs
  induction rs with
  | nil => intro j _; rfl
  | cons r rs ih =>
    intro j h
    have hj : j < n := by simp at h; omega
    have hmem : j ∈ dupIndices sim n ↔ ∃ i, i < j ∧ sim i j > 4/5 := by
      rw [mem_dupIndices]
      constructor
      · rintro ⟨i, hij, _, hs⟩; exact ⟨i, hij, hs⟩
      · rintro ⟨i, hij, hs⟩; exact ⟨i, hij, hj, hs⟩
    simp only [removeDupGo, keepDissimilar]
    by_cases hd : ∃ i, i < j ∧ sim i j > 4/5
    · rw [if_pos (hmem.mpr hd), if_pos hd]
      exact ih (j + 1) (by simp at h ⊢; omega)
    · rw [if_neg (fun hm => hd (hmem.mp hm)), if_neg hd]
      exact congrArg (r :: ·) (ih (j + 1) (by simp at h ⊢; omega))

/-- Fact that `remove_duplicates` is the spec-shaped walk started at position 0. -/
theorem removeDuplicates_eq_keep (sim : Nat → Nat → ℚ) (recs : List Paper) :
    removeDuplicates sim recs = keepDissimilar sim 0 recs :=
  removeDupGo_eq_keepDissimilar sim recs.length recs 0 (by simp)

/-- When no in-range pair exceeds the threshold, the walk keeps every
row. -/
theorem keepDissimilar_eq_self (sim : Nat → Nat → ℚ) :
    ∀ (rs : List Paper) (j : Nat),
      (∀ i k, i < k → j ≤ k → k < j + rs.length → sim i k ≤ 4/5) →
      keepDissimilar sim j rs = rs := by
  intro rs
  induction rs with
  | nil => intro j _; rfl
  | cons r rs ih =>
    intro j h
    have hcond : ¬∃ i, i < j ∧ sim i j > 4/5 := by
      rintro ⟨i, hij, hs⟩
      exact absurd hs (not_lt.mpr (h i j hij le_rfl (by simp only [List.length_cons]; omega)))
    simp only [keepDissimilar, if_neg hcond]
    exact congrArg (r :: ·) (ih (j + 1) (fun i k hik hk1 hk2 => h i k hik (by omega) (by simp only [List.length_cons] at hk2 ⊢; omega)))

/-- C3: the similarity pass drops exactly the records at positions `j`
that have some earlier position `i < j` with similarity above 0.8
(`removeDuplicates` equals the spec-shaped walk), and in particular the
removal is not transitive-closure-aware: with `A~B > 0.8`, `B~C > 0.8`
but `A~C ≤ 0.8`, both `B` and `C` are dropped and `A` is kept. -/
theorem similarity_pass_drops_later (sim : Nat → Nat → ℚ) :
    (∀ recs : List Paper, removeDuplicates sim recs = keepDissimilar sim 0 recs)
    ∧ (∀ A B C : Paper, sim 0 1 > 4/5 → sim 1 2 > 4/5 → sim 0 2 ≤ 4/5 →
        removeDuplicates sim [A, B, C] = [A]) := by
  constructor
  · exact removeDuplicates_eq_keep sim
  · intro A B C h01 h12 h02
    rw [removeDuplicates_eq_keep]
    simp only [keepDissimilar]
    rw [if_neg (by rintro ⟨i, hi, _⟩; omega),
      if_pos ⟨0, by omega, h01⟩,
      if_pos ⟨1, by omega, h12⟩]

/-- Witness for C3 on a concrete chain-similarity matrix. -/
theorem similarity_pass_drops_later_w :
    removeDuplicates
      (fun i j => if (i = 0 ∧ j = 1) ∨ (i = 1 ∧ j = 2) then 1 else 0)
      [mkP none "A", mkP none "B", mkP none "C"] = [mkP none "A"] :=
  (similarity_pass_drops_later
      (fun i j => if (i = 0 ∧ j = 1) ∨ (i = 1 ∧ j = 2) then 1 else 0)).2
    (mkP none "A") (mkP none "B") (mkP none "C")
    (by norm_num) (by norm_num) (by norm_num)

/-- C9: the similarity pass is the identity on a record list in which
no pair of titles has similarity above the 0.8 threshold. -/
theorem similarity_pass_idempotent (sim : Nat → Nat → ℚ) (recs : List Paper)
    (h : ∀ i j, i < j → j < recs.length → sim i j ≤ 4/5) :
    removeDuplicates sim recs = recs := by
  rw [removeDuplicates_eq_keep]
  exact keepDissimilar_eq_self sim recs 0
    (fun i k hik _ hk => h i k hik (by simpa using hk))

/-- Witness for C9 on the all-zero similarity matrix. -/
theorem similarity_pass_idempotent_w :
    removeDuplicates (fun _ _ => 0) [mkP none "alpha", mkP none "beta"]
      = [mkP none "alpha", mkP none "beta"] :=
  similarity_pass_idempotent (fun _ _ => 0) [mkP none "alpha", mkP none "beta"]
    (fun i j _ _ => by norm_num)

/-- Fact that `drop_duplicates` returns a subsequence of its input. -/
theorem dedupByDoiAux_sublist :
    ∀ (l : List Paper) (seen : List (Option String)),
      List.Sublist (dedupByDoiAux l seen) l := by
  intro l
  induction l with
  | nil => intro seen; exact List.Sublist.refl []
  | cons p ps ih =>
    intro seen
    simp only [dedupByDoiAux]
    by_cases h : p.doi ∈ seen
    · rw [if_pos h]
      exact List.Sublist.cons p (ih seen)
    · rw [if_neg h]
      exact List.Sublist.cons₂ p (ih (p.doi :: seen))

/-- The DOIs kept by `drop_duplicates` are pairwise distinct and avoid
the already-seen set. -/
theorem dedupByDoiAux_nodup :
    ∀ (l : List Paper) (seen : List (Option String)),
      ((dedupByDoiAux l seen).map Paper.doi).Nodup
      ∧ ∀ d ∈ (dedupByDoiAux l seen).map Paper.doi, d ∉ seen := by
  intro l
  induction l with
  | nil => intro seen; exact ⟨List.nodup_nil, by intro d hd; simp [dedupByDoiAux] at hd⟩
  | cons p ps ih =>
    intro seen
    simp only [dedupByDoiAux]
    by_cases h : p.doi ∈ seen
    · rw [if_pos h]
      exact ih seen
    · rw [if_neg h]
      obtain ⟨hnd, hni⟩ := ih (p.doi :: seen)
      constructor
      · rw [List.map_cons, List.nodup_cons]
        exact ⟨fun hmem => (hni p.doi hmem) (List.mem_cons_self _ _), hnd⟩
      · intro d hd
        rcases List.mem_cons.mp hd with he | hm
        · subst he; exact h
        · exact fun hs => (hni d hm) (List.mem_cons_of_mem _ hs)

/-- On a list whose DOIs are pairwise distinct and unseen,
`drop_duplicates` keeps everything. -/
theorem dedupByDoiAux_id :
    ∀ (l : List Paper) (seen : List (Option String)),
      l.Pairwise (fun p q => p.doi ≠ q.doi) →
      (∀ p ∈ l, p.doi ∉ seen) →
      dedupByDoiAux l seen = l := by
  intro l
  induction l with
  | nil => intro seen _ _; rfl
  | cons p ps ih =>
    intro seen hpw hseen
    obtain ⟨hp, hps⟩ := List.pairwise_cons.mp hpw
    simp only [dedupByDoiAux, if_neg (hseen p (List.mem_cons_self _ _))]
    refine congrArg (p :: ·) (ih (p.doi :: seen) hps ?_)
    intro q hq
    rw [List.mem_cons]
    rintro (he | hs)
    · exact (hp q hq) he.symm
    · exact (hseen q (List.mem_cons_of_mem _ hq)) hs

/-- C1 (as stated) is violated: two records whose DOIs agree up to
letter case but differ in case are both kept by the exact pass, which
compares DOI strings case-sensitively. -/
theorem doi_case_dedup_cex :
    lowerStr "10.1/ABC" = lowerStr "10.1/abc"
    ∧ saveResultsCore [mkP (some "10.1/ABC") "a", mkP (some "10.1/abc") "b"]
        = [mkP (some "10.1/ABC") "a", mkP (some "10.1/abc") "b"] := by
  exact ⟨by decide, by decide⟩

/-- C1 (amended): the exact pass keeps the first occurrence per
byte-identical DOI value — two records with equal DOI strings leave
exactly the first, two records with DOIs differing (even only in case)
are both kept — and in general the kept has-DOI rows form a
subsequence of the has-DOI input rows with pairwise distinct DOIs. -/
theorem exact_dedup_first_seen (p1 p2 : Paper) :
    (p1.doi.isSome = true → p2.doi = p1.doi → saveResultsCore [p1, p2] = [p1])
    ∧ (p1.doi.isSome = true → p2.doi.isSome = true → p2.doi ≠ p1.doi →
        saveResultsCore [p1, p2] = [p1, p2])
    ∧ (∀ papers : List Paper,
        ((dedupByDoiAux (papers.filter fun p => p.doi.isSome) []).map Paper.doi).Nodup
        ∧ List.Sublist (dedupByDoiAux (papers.filter fun p => p.doi.isSome) [])
            (papers.filter fun p => p.doi.isSome)) := by
  refine ⟨?_, ?_, ?_⟩
  · intro h1 h2
    have hn1 : p1.doi.isNone = false := by
      cases hd : p1.doi with
      | none => rw [hd] at h1; cases h1
      | some d => rfl
    have hn2 : p2.doi.isNone = false := by rw [h2]; exact hn1
    have hs2 : p2.doi.isSome = true := by rw [h2]; exact h1
    simp [saveResultsCore, dedupByDoiAux, h1, h2, hn1, hn2, hs2]
  · intro h1 h2 hne
    have hn1 : p1.doi.isNone = false := by
      cases hd : p1.doi with
      | none => rw [hd] at h1; cases h1
      | some d => rfl
    have hn2 : p2.doi.isNone = false := by
      cases hd : p2.doi with
      | none => rw [hd] at h2; cases h2
      | some d => rfl
    simp [saveResultsCore, dedupByDoiAux, h1, h2, hn1, hn2, hne]
  · intro papers
    exact ⟨(dedupByDoiAux_nodup _ []).1, dedupByDoiAux_sublist _ []⟩

/-- Witness for C1 (amended): byte-identical DOIs collapse to the
first-seen record. -/
theorem exact_dedup_first_seen_w :
    saveResultsCore [mkP (some "10.1/x") "a", mkP (some "10.1/x") "b"]
      = [mkP (some "10.1/x") "a"] :=
  (exact_dedup_first_seen (mkP (some "10.1/x") "a") (mkP (some "10.1/x") "b")).1 rfl rfl

/-- The has-DOI / no-DOI partition covers the whole list. -/
theorem filter_doi_partition_length (l : List Paper) :
    (l.filter (fun p => p.doi.isSome)).length
      + (l.filter (fun p => p.doi.isNone)).length = l.length := by
  induction l with
  | nil => rfl
  | cons p ps ih =>
    cases hd : p.doi with
    | none => simp [List.filter_cons, hd]; omega
    | some d => simp [List.filter_cons, hd]; omega

/-- C2 (as stated) is violated: even with no DOI collision and no
similar titles, the pipeline moves DOI-less records behind the
DOI-bearing ones, so the output order differs from the input order. -/
theorem dedup_not_identity_cex :
    ([mkP none "alpha", mkP (some "10.1/x") "beta"].Pairwise
      (fun p q => ∀ d e, p.doi = some d → q.doi = some e → lowerStr d ≠ lowerStr e))
    ∧ (∀ i j, i < j → j < 2 → (fun _ _ => (0 : ℚ)) i j ≤ 4/5)
    ∧ dedupPipeline (fun _ _ => (0 : ℚ)) [mkP none "alpha", mkP (some "10.1/x") "beta"]
        ≠ [mkP none "alpha", mkP (some "10.1/x") "beta"] := by
  refine ⟨?_, ?_, ?_⟩
  · simp [List.pairwise_cons, mkP]
  · intro i j _ _; norm_num
  · have hcore : saveResultsCore [mkP none "alpha", mkP (some "10.1/x") "beta"]
        = [mkP (some "10.1/x") "beta", mkP none "alpha"] := by decide
    have hsim : removeDuplicates (fun _ _ => (0 : ℚ))
        [mkP (some "10.1/x") "beta", mkP none "alpha"]
        = [mkP (some "10.1/x") "beta", mkP none "alpha"] := by
      rw [removeDuplicates_eq_keep]
      exact keepDissimilar_eq_self _ _ 0 (fun i k _ _ _ => by norm_num)
    unfold dedupPipeline
    rw [hcore, hsim]
    decide

/-- C2 (amended): with pairwise case-distinct DOIs and no title pair
above the 0.8 threshold, the pipeline returns the has-DOI records in
their original relative order followed by the no-DOI records in their
original relative order (a permutation of the input, not the input
itself); it is the identity when every record carries a DOI. -/
theorem dedup_stable_partition (papers : List Paper) (sim : Nat → Nat → ℚ)
    (hdoi : papers.Pairwise
      (fun p q => ∀ d e, p.doi = some d → q.doi = some e → lowerStr d ≠ lowerStr e))
    (hsim : ∀ i j, i < j → j < papers.length → sim i j ≤ 4/5) :
    dedupPipeline sim papers
      = papers.filter (fun p => p.doi.isSome) ++ papers.filter (fun p => p.doi.isNone)
    ∧ ((∀ p ∈ papers, p.doi.isSome = true) → dedupPipeline sim papers = papers) := by
  have hpw : (papers.filter (fun p => p.doi.isSome)).Pairwise (fun p q => p.doi ≠ q.doi) := by
    have hsub := List.filter_sublist (p := fun p => p.doi.isSome) papers
    refine (hdoi.sublist hsub).imp_of_mem ?_
    intro p q hp hq hrel heq
    have hp1 : p.doi.isSome = true := by simpa using (List.mem_filter.mp hp).2
    have hq1 : q.doi.isSome = true := by simpa using (List.mem_filter.mp hq).2
    obtain ⟨d, hd⟩ := Option.isSome_iff_exists.mp hp1
    obtain ⟨e, he⟩ := Option.isSome_iff_exists.mp hq1
    have : d = e := by rw [hd, he] at heq; exact Option.some.inj heq
    exact (hrel d e hd he) (by rw [this])
  have hcore : saveResultsCore papers
      = papers.filter (fun p => p.doi.isSome) ++ papers.filter (fun p => p.doi.isNone) := by
    unfold saveResultsCore
    rw [dedupByDoiAux_id _ [] hpw (by intro p _; exact List.not_mem_nil _)]
  have hlen : (papers.filter (fun p => p.doi.isSome)
      ++ papers.filter (fun p => p.doi.isNone)).length = papers.length := by
    rw [List.length_append]
    exact filter_doi_partition_length papers
  have hmain : dedupPipeline sim papers
      = papers.filter (fun p => p.doi.isSome) ++ papers.filter (fun p => p.doi.isNone) := by
    unfold dedupPipeline
    rw [hcore, removeDuplicates_eq_keep]
    refine keepDissimilar_eq_self sim _ 0 ?_
    intro i k hik _ hk
    refine hsim i k hik ?_
    rw [Nat.zero_add, hlen] at hk
    exact hk
  refine ⟨hmain, ?_⟩
  intro hall
  rw [hmain, List.filter_eq_self.mpr hall]
  have hnone : papers.filter (fun p => p.doi.isNone) = [] := by
    rw [List.filter_eq_nil_iff]
    intro p hp
    have := hall p hp
    cases hd : p.doi with
    | none => rw [hd] at this; cases this
    | some d => simp [hd]
  rw [hnone, List.append_nil]

/-- Witness for C2 (amended): two distinct-DOI records pass through the
pipeline unchanged. -/
theorem dedup_stable_partition_w :
    dedupPipeline (fun _ _ => 0) [mkP (some "10.1/a") "alpha", mkP (some "10.1/b") "beta"]
      = [mkP (some "10.1/a") "alpha", mkP (some "10.1/b") "beta"] :=
  (dedup_stable_partition [mkP (some "10.1/a") "alpha", mkP (some "10.1/b") "beta"]
      (fun _ _ => 0)
      (by simp [List.pairwise_cons, mkP]; decide)
      (fun i j _ _ => by norm_num)).2
    (by intro p hp; rcases List.mem_cons.mp hp with h | h
        · subst h; rfl
        · rcases List.mem_cons.mp h with h2 | h2
          · subst h2; rfl
          · cases h2)

/-- The collision loop stops at the first unregistered candidate: if
candidate `m` is free, all candidates from `s` up to `m` are taken, and
at least `m - s` iterations of fuel remain, the loop started at `s`
returns candidate `m`. -/
theorem keyLoop_finds (keys : List String) (base : String) :
    ∀ (fuel s m : Nat), s ≤ m → m ≤ s + fuel →
      suffixCand base m ∉ keys →
      (∀ r, s ≤ r → r < m → suffixCand base r ∈ keys) →
      keyLoop keys base fuel s = suffixCand base m := by
  intro fuel
  induction fuel with
  | zero =>
    intro s m h1 h2 h3 _
    have : m = s := by omega
    subst this
    rfl
  | succ fuel ih =>
    intro s m h1 h2 h3 h4
    by_cases hs : suffixCand base s ∈ keys
    · have hm : s < m := by
        rcases Nat.eq_or_lt_of_le h1 with he | hlt
        · subst he; exact absurd hs h3
        · exact hlt
      simp only [keyLoop, if_pos hs]
      exact ih (s + 1) m hm (by omega) h3 (fun r hr1 hr2 => h4 r (by omega) hr2)
    · have hm : m = s := by
        by_contra hne
        exact hs (h4 s le_rfl (Nat.lt_of_le_of_ne h1 (fun he => hne he.symm)))
      subst hm
      simp only [keyLoop, if_neg hs]

/-- C4: collision policy of the citation-key generator. With the base
key free, the first call returns it bare; a second paper producing the
same base key, keyed against the registry extended by that first
returned key, gets the base key with suffix `1`; in general the loop
returns the candidate of the least suffix not in the registry (reached
here within `|registry| + 1` iterations, the fuel of the embedding);
and whenever `base + str(suffix)` would exceed 50 characters, the
candidate truncates the base to `50 - len(str(suffix))` characters
before appending the suffix. -/
theorem citation_key_collision_policy (t : String) (a : Option String) (y : Option Int)
    (d : Option String) (keys : List String) :
    (mkBaseKey t a y ∉ keys → cleanBibtexKey t a y d keys = mkBaseKey t a y)
    ∧ (∀ (t' : String) (a' : Option String) (y' : Option Int) (d' : Option String),
        mkBaseKey t' a' y' = mkBaseKey t a y →
        mkBaseKey t a y ∉ keys →
        suffixCand (mkBaseKey t a y) 1 ∉ cleanBibtexKey t a y d keys :: keys →
        cleanBibtexKey t' a' y' d' (cleanBibtexKey t a y d keys :: keys)
          = suffixCand (mkBaseKey t a y) 1)
    ∧ (∀ m, m ≤ keys.length + 1 →
        suffixCand (mkBaseKey t a y) m ∉ keys →
        (∀ r, r < m → suffixCand (mkBaseKey t a y) r ∈ keys) →
        cleanBibtexKey t a y d keys = suffixCand (mkBaseKey t a y) m)
    ∧ (∀ s : Nat, ¬((mkBaseKey t a y ++ natToStr (s + 1)).length ≤ 50) →
        suffixCand (mkBaseKey t a y) (s + 1)
          = pySliceTo (mkBaseKey t a y) ((50 : Int) - (natToStr (s + 1)).length)
              ++ natToStr (s + 1)) := by
  refine ⟨?_, ?_, ?_, ?_⟩
  · intro h
    exact keyLoop_finds keys (mkBaseKey t a y) (keys.length + 1) 0 0
      (le_refl 0) (by omega) h (fun r hr1 hr2 => absurd hr2 (by omega))
  · intro t' a' y' d' hbase h1 h2
    have hfirst : cleanBibtexKey t a y d keys = mkBaseKey t a y :=
      keyLoop_finds keys (mkBaseKey t a y) (keys.length + 1) 0 0
        (le_refl 0) (by omega) h1 (fun r hr1 hr2 => absurd hr2 (by omega))
    rw [hfirst] at h2 ⊢
    unfold cleanBibtexKey
    rw [hbase]
    refine keyLoop_finds _ _ _ 0 1 (by omega) (by simp only [List.length_cons]; omega) h2 ?_
    intro r hr1 hr2
    have : r = 0 := by omega
    subst this
    exact List.mem_cons_self _ _
  · intro m hm h1 h2
    exact keyLoop_finds keys (mkBaseKey t a y) (keys.length + 1) 0 m
      (Nat.zero_le m) (by omega) h1 (fun r _ hr2 => h2 r hr2)
  · intro s h
    simp only [suffixCand, if_neg h]

/-- Witness for C4: the Smith-2020 paper keyed twice in sequence. -/
theorem citation_key_collision_policy_w :
    cleanBibtexKey "A Study" (some "Smith, John") (some 2020) none [] = "Smith2020a"
    ∧ cleanBibtexKey "A Study" (some "Smith, John") (some 2020) none ["Smith2020a"]
        = "Smith2020a1" := by
  have h1 := (citation_key_collision_policy "A Study" (some "Smith, John") (some 2020)
    none []).1 (List.not_mem_nil _)
  have h2 := (citation_key_collision_policy "A Study" (some "Smith, John") (some 2020)
    none []).2.1 "A Study" (some "Smith, John") (some 2020) none rfl
    (List.not_mem_nil _) (by decide)
  exact ⟨h1.trans (by decide), (by decide : cleanBibtexKey "A Study" (some "Smith, John") (some 2020) none ["Smith2020a"] = cleanBibtexKey "A Study" (some "Smith, John") (some 2020) none (cleanBibtexKey "A Study" (some "Smith, John") (some 2020) none [] :: [])).trans (h2.trans (by decide))⟩
